import Mathlib

set_option maxRecDepth 8000
set_option allowUnsafeReducibility true
attribute [semireducible] Rat.mul Rat.inv Rat.add Rat.sub

/-!
Formal model of the telemetry parsing and 15-minute aggregation logic of
`examples/basic_usage.py` in the `tigo_python` repository, together with
proofs of the specification properties stated for it.

Modelling conventions:
* Python strings are modelled as `List Char` (ASCII fragment; the inputs of
  interest are ASCII CSV rows).
* Python `float` values are modelled as exact rationals `ℚ`.
* A Python `datetime` value is modelled as the record of its fields
  (`PyDateTime`); `datetime` comparison is lexicographic on those fields.
* Fallible Python operations (`datetime.strptime`, `float(...)`) are modelled
  as `Option`-valued functions; a caught `ValueError` corresponds to `none`.
-/

/-- Model of a (timezone-naive) Python `datetime.datetime` value: the record
of its calendar and clock fields. -/
structure PyDateTime where
  year : Nat
  month : Nat
  day : Nat
  hour : Nat
  minute : Nat
  second : Nat
  microsecond : Nat
deriving DecidableEq, Inhabited

/-- Character list of a string literal (used to write concrete inputs). -/
def chars (s : String) : List Char := s.data

/-- Model of Python `str.split(sep)` for a one-character separator. -/
def splitOnChar (sep : Char) : List Char → List (List Char)
  | [] => [[]]
  | c :: cs =>
    match splitOnChar sep cs with
    | [] => [[]]
    | f :: r => if c = sep then [] :: f :: r else (c :: f) :: r

/-- Whitespace characters removed by Python `str.strip()` (ASCII fragment). -/
def isPySpace (c : Char) : Bool :=
  c = ' ' || c = '\t' || c = '\n' || c = '\r' || c = '\x0b' || c = '\x0c'

/-- Model of Python `str.strip()`. -/
def pyStrip (s : List Char) : List Char :=
  ((s.dropWhile isPySpace).reverse.dropWhile isPySpace).reverse

/-- Maximal leading run of decimal digits of a character list, together with
the remainder. -/
def takeDigits : List Char → List Char × List Char
  | [] => ([], [])
  | c :: cs =>
    if c.isDigit then
      let r := takeDigits cs
      (c :: r.1, r.2)
    else ([], c :: cs)

/-- Numeric value of a list of decimal digit characters. -/
def natOfDigits (ds : List Char) : Nat :=
  ds.foldl (fun a c => a * 10 + (c.toNat - 48)) 0

/-- Fractional value of the digits after a decimal point. -/
def fracOfDigits (ds : List Char) : ℚ :=
  ds.foldr (fun c q => (((c.toNat - 48 : Nat) : ℚ) + q) / 10) 0

/-- Parse a `%Y` field as in CPython `strptime`: exactly four digits. -/
def parseYear (s : List Char) : Option (Nat × List Char) :=
  match takeDigits s with
  | ([a, b, c, d], rest) => some (natOfDigits [a, b, c, d], rest)
  | _ => none

/-- Parse a one- or two-digit numeric field as in CPython `strptime`: a
two-digit reading is accepted when its value lies in `[lo2, hi2]`, a
one-digit reading when its value is at least `lo1`; a run of three or more
digits cannot match because the following literal is a non-digit. -/
def parseNumField (lo2 hi2 lo1 : Nat) (s : List Char) : Option (Nat × List Char) :=
  match takeDigits s with
  | ([c], rest) =>
    let v := c.toNat - 48
    if lo1 ≤ v then some (v, rest) else none
  | ([c1, c2], rest) =>
    let v := (c1.toNat - 48) * 10 + (c2.toNat - 48)
    if lo2 ≤ v ∧ v ≤ hi2 then some (v, rest) else none
  | _ => none

/-- Consume one expected literal character. -/
def expectChar (c : Char) : List Char → Option (List Char)
  | x :: xs => if x = c then some xs else none
  | [] => none

/-- Consume a non-empty run of whitespace characters: CPython `strptime`
compiles a whitespace run in the format string to the regex `\s+`, so a
single space in the format matches one or more whitespace characters in the
data (greedily; the following field is numeric, so greedy matching is
exact). -/
def expectSpaces : List Char → Option (List Char)
  | x :: xs => if isPySpace x then some (xs.dropWhile isPySpace) else none
  | [] => none

/-- Gregorian leap-year test, as used by Python `datetime`. -/
def isLeapYear (y : Nat) : Bool :=
  (y % 4 = 0 && !(y % 100 = 0)) || y % 400 = 0

/-- Number of days in a month, as validated by the Python `datetime`
constructor. -/
def daysInMonth (y m : Nat) : Nat :=
  if m = 2 then (if isLeapYear y then 29 else 28)
  else if m = 4 || m = 6 || m = 9 || m = 11 then 30
  else 31

/-- Model of `datetime.strptime(s, fmt)` for the two formats used in
`basic_usage.py`, which differ only in the date separator character:
`%Y<sep>%m<sep>%d %H:%M:%S`.  The space in the format matches any non-empty
whitespace run (CPython compiles format whitespace to `\s+`), the whole
string must be consumed, and the resulting field values must form a valid
`datetime` (year at least 1, day valid for the month, second at most 59);
otherwise the call raises `ValueError`, modelled as `none`. -/
def strptimeWithSep (sep : Char) (s : List Char) : Option PyDateTime := do
  let (y, s1) ← parseYear s
  let s2 ← expectChar sep s1
  let (mo, s3) ← parseNumField 1 12 1 s2
  let s4 ← expectChar sep s3
  let (d, s5) ← parseNumField 1 31 1 s4
  let s6 ← expectSpaces s5
  let (h, s7) ← parseNumField 0 23 0 s6
  let s8 ← expectChar ':' s7
  let (mi, s9) ← parseNumField 0 59 0 s8
  let s10 ← expectChar ':' s9
  let (sec, s11) ← parseNumField 0 61 0 s10
  if s11 = [] ∧ 1 ≤ y ∧ d ≤ daysInMonth y mo ∧ sec ≤ 59 then
    some { year := y, month := mo, day := d, hour := h, minute := mi,
           second := sec, microsecond := 0 }
  else none

/-- Model of the timestamp parse in `basic_usage.py` (lines 334–341): try
`'%Y/%m/%d %H:%M:%S'` first and, on `ValueError`, fall back to
`'%Y-%m-%d %H:%M:%S'`. -/
def parseTimestamp (s : List Char) : Option PyDateTime :=
  match strptimeWithSep '/' s with
  | some t => some t
  | none => strptimeWithSep '-' s

/-- The power string with `'.'` and `'-'` deleted, as in
`power_str.replace('.','').replace('-','')`. -/
def screened (s : List Char) : List Char :=
  s.filter (fun c => !(c = '.' || c = '-'))

/-- Model of the screen `power_str.replace('.','').replace('-','').isdigit()`
(line 345): the screened string is non-empty and all digits. -/
def passesScreen (s : List Char) : Bool :=
  !(screened s).isEmpty && (screened s).all (fun c => c.isDigit)

/-- Value of Python `float(s)` for a string made only of digits, `'.'` and
`'-'` — the only strings on which `basic_usage.py` calls `float` (every
other string fails the `isdigit` screen first).  Such a string converts
exactly when it is an optional single leading minus sign followed by digits
with at most one decimal point and at least one digit; otherwise `float`
raises `ValueError`, modelled as `none`. -/
def unsignedFloatOf (s : List Char) : Option ℚ :=
  if s.all (fun c => c.isDigit || c = '.') then
    match splitOnChar '.' s with
    | [i] => if i.isEmpty then none else some ((natOfDigits i : ℚ))
    | [i, f] =>
      if i.isEmpty && f.isEmpty then none
      else some ((natOfDigits i : ℚ) + fracOfDigits f)
    | _ => none
  else none

/-- Signed variant of `unsignedFloatOf` (see its docstring). -/
def floatOfDigitsDotMinus : List Char → Option ℚ
  | '-' :: rest => (unsignedFloatOf rest).map (fun q => -q)
  | s => unsignedFloatOf s

/-- Model of the power parse in `basic_usage.py` (lines 343–347):
`float(power_str)` guarded by the digit screen, with a caught `ValueError`
defaulting to `0`. -/
def parsePower (s : List Char) : ℚ :=
  if passesScreen s then (floatOfDigitsDotMinus s).getD 0 else 0

/-- Model of lines 350–351: replace the minute by the nearest 15-minute
multiple below it and zero the second and microsecond fields. -/
def chunkTime (t : PyDateTime) : PyDateTime :=
  { t with minute := t.minute / 15 * 15, second := 0, microsecond := 0 }

/-- One emitted aggregate record (the dict appended to `aggregated_data`). -/
structure Bucket where
  timestamp : PyDateTime
  avg_power : ℚ
  max_power : ℚ
  min_power : ℚ
  readings : Nat
deriving DecidableEq, Inhabited

/-- Python `sum(list)` over rationals. -/
def sumList (l : List ℚ) : ℚ := l.foldl (· + ·) 0

/-- Python `max(list)` on a non-empty list (`0` on the empty list, which the
program never reaches). -/
def pyMax : List ℚ → ℚ
  | [] => 0
  | x :: xs => xs.foldl max x

/-- Python `min(list)` on a non-empty list (`0` on the empty list, which the
program never reaches). -/
def pyMin : List ℚ → ℚ
  | [] => 0
  | x :: xs => xs.foldl min x

/-- The aggregate record flushed for a chunk (lines 358–369 and 379–389). -/
def mkBucket (ts : PyDateTime) (chunk : List ℚ) : Bucket :=
  { timestamp := ts
    avg_power := sumList chunk / (chunk.length : ℚ)
    max_power := pyMax chunk
    min_power := pyMin chunk
    readings := chunk.length }

/-- Loop state of the aggregation loop (lines 323–326). -/
structure AggState where
  aggregated_data : List Bucket
  current_chunk : List ℚ
  current_timestamp : Option PyDateTime
  chunk_start_time : Option PyDateTime
deriving DecidableEq

/-- Initial loop state (lines 323–326). -/
def initState : AggState :=
  { aggregated_data := []
    current_chunk := []
    current_timestamp := none
    chunk_start_time := none }

/-- One iteration of the aggregation loop body for an already-parsed reading
(lines 349–376): compute the reading's chunk, flush the current chunk when
the incoming chunk differs, then append the reading's power. -/
def stepReading (st : AggState) (r : PyDateTime × ℚ) : AggState :=
  let chunk_time := chunkTime r.1
  let st1 :=
    match st.current_timestamp with
    | none =>
      { st with current_timestamp := some chunk_time, chunk_start_time := some r.1 }
    | some ct =>
      if chunk_time ≠ ct then
        { aggregated_data :=
            if st.current_chunk ≠ [] then
              st.aggregated_data ++ [mkBucket ct st.current_chunk]
            else st.aggregated_data
          current_chunk := []
          current_timestamp := some chunk_time
          chunk_start_time := some r.1 }
      else st
  { st1 with current_chunk := st1.current_chunk ++ [r.2] }

/-- One iteration of the aggregation loop for a raw CSV row (lines 328–347):
split on commas, require at least two fields, parse the timestamp (skipping
the row when both formats fail) and the power field. -/
def stepLine (st : AggState) (line : List Char) : AggState :=
  match splitOnChar ',' line with
  | timestamp_str :: power_str :: _ =>
    (match parseTimestamp timestamp_str with
     | none => st
     | some timestamp => stepReading st (timestamp, parsePower power_str))
  | _ => st

/-- Flush of the final open chunk after the loop (lines 378–389). -/
def finishAgg (st : AggState) : List Bucket :=
  if st.current_chunk ≠ [] then
    st.aggregated_data ++ [mkBucket (st.current_timestamp.getD default) st.current_chunk]
  else st.aggregated_data

/-- The aggregation pipeline on a list of raw CSV rows. -/
def aggregateRows (rows : List (List Char)) : List Bucket :=
  finishAgg (rows.foldl stepLine initState)

/-- The aggregation pipeline on a list of already-parsed readings. -/
def aggregateReadings (rs : List (PyDateTime × ℚ)) : List Bucket :=
  finishAgg (rs.foldl stepReading initState)

/-- Row validity as used by the loop: at least two comma-separated fields and
a timestamp accepted by one of the two formats. -/
def isValidRow (line : List Char) : Bool :=
  match splitOnChar ',' line with
  | timestamp_str :: _ :: _ => (parseTimestamp timestamp_str).isSome
  | _ => false

/-- Model of lines 312–317: the raw CSV is stripped, split on newlines, the
header line is dropped, and the remaining rows are aggregated; with at most
one line nothing is aggregated. -/
def processLines (lines : List (List Char)) : List Bucket :=
  if 1 < lines.length then aggregateRows (lines.drop 1) else []

/-- The full pipeline from raw CSV text (lines 312–317 plus the loop). -/
def processCsv (csv : List Char) : List Bucket :=
  if csv ≠ [] ∧ pyStrip csv ≠ [] then
    processLines (splitOnChar '\n' (pyStrip csv))
  else []

/-- Count of aggregated chunks whose average power exceeds 50 W
(line 424: `len([c for c in aggregated_data if c['avg_power'] > 50])`). -/
def productive_chunks (agg : List Bucket) : Nat :=
  (agg.filter (fun c => decide ((50 : ℚ) < c.avg_power))).length

/-- Productive hours reported on line 431: `productive_chunks * 0.25`. -/
def productive_hours (agg : List Bucket) : ℚ :=
  (productive_chunks agg : ℚ) * (25 / 100)

/-- Length in days of the analysis period of the aggregation section: the
raw data is requested for the last 24 hours (lines 305–306). -/
def analysis_period_days : ℚ := 1

/-- Field tuple of a `PyDateTime`, in comparison order: Python compares
(timezone-naive) `datetime` values lexicographically on these fields. -/
def dtFields (t : PyDateTime) : List Nat :=
  [t.year, t.month, t.day, t.hour, t.minute, t.second, t.microsecond]

/-- Lexicographic non-strict comparison of field lists. -/
def lexLe : List Nat → List Nat → Bool
  | [], _ => true
  | _ :: _, [] => false
  | a :: l1, b :: l2 =>
    if a < b then true else if b < a then false else lexLe l1 l2

/-- Lexicographic strict comparison of field lists. -/
def lexLt : List Nat → List Nat → Bool
  | _, [] => false
  | [], _ :: _ => true
  | a :: l1, b :: l2 =>
    if a < b then true else if b < a then false else lexLt l1 l2

/-- Model of Python `datetime` comparison `a <= b`. -/
def dtLe (a b : PyDateTime) : Bool := lexLe (dtFields a) (dtFields b)

/-- Model of Python `datetime` comparison `a < b`. -/
def dtLt (a b : PyDateTime) : Bool := lexLt (dtFields a) (dtFields b)

/-- Instrumented aggregate record: like the dict appended to
`aggregated_data`, but retaining the parsed readings that were folded into
the chunk instead of their computed statistics.  Used to state which bucket
each input reading is folded into; `eraseTB` recovers the records the
program actually builds. -/
structure TBucket where
  timestamp : PyDateTime
  samples : List (PyDateTime × ℚ)
deriving DecidableEq

/-- Instrumented loop state: `current_chunk` keeps whole readings instead of
bare power values. -/
structure TAggState where
  aggregated_data : List TBucket
  current_chunk : List (PyDateTime × ℚ)
  current_timestamp : Option PyDateTime
  chunk_start_time : Option PyDateTime
deriving DecidableEq

/-- Instrumented initial state. -/
def tInit : TAggState :=
  { aggregated_data := []
    current_chunk := []
    current_timestamp := none
    chunk_start_time := none }

/-- Instrumented loop body: identical control flow to `stepReading`, but the
chunk records the full reading. -/
def tStepReading (st : TAggState) (r : PyDateTime × ℚ) : TAggState :=
  let chunk_time := chunkTime r.1
  let st1 :=
    match st.current_timestamp with
    | none =>
      { st with current_timestamp := some chunk_time, chunk_start_time := some r.1 }
    | some ct =>
      if chunk_time ≠ ct then
        { aggregated_data :=
            if st.current_chunk ≠ [] then
              st.aggregated_data ++ [TBucket.mk ct st.current_chunk]
            else st.aggregated_data
          current_chunk := []
          current_timestamp := some chunk_time
          chunk_start_time := some r.1 }
      else st
  { st1 with current_chunk := st1.current_chunk ++ [r] }

/-- Instrumented final flush. -/
def tFinish (st : TAggState) : List TBucket :=
  if st.current_chunk ≠ [] then
    st.aggregated_data ++ [TBucket.mk (st.current_timestamp.getD default) st.current_chunk]
  else st.aggregated_data

/-- Instrumented aggregation pipeline on parsed readings. -/
def tAggregate (rs : List (PyDateTime × ℚ)) : List TBucket :=
  tFinish (rs.foldl tStepReading tInit)

/-- Erase the instrumentation of a bucket, computing the statistics the
program stores for its chunk. -/
def eraseTB (b : TBucket) : Bucket :=
  mkBucket b.timestamp (b.samples.map Prod.snd)

/-- Erase the instrumentation of a loop state. -/
def eraseTS (st : TAggState) : AggState :=
  { aggregated_data := st.aggregated_data.map eraseTB
    current_chunk := st.current_chunk.map Prod.snd
    current_timestamp := st.current_timestamp
    chunk_start_time := st.chunk_start_time }

/-- Modelled from the spec: a "non-negative decimal numeral" — a string of
decimal digits with at most one decimal point and no sign, containing at
least one digit. -/
def isNonNegDecimalNumeral (s : List Char) : Bool :=
  s.all (fun c => c.isDigit || c = '.')
    && !(s.filter (fun c => c.isDigit)).isEmpty
    && (s.filter (fun c => c = '.')).length ≤ 1

/-- Mean-bound property of an aggregate record: the average lies between the
minimum and the maximum. -/
def BucketOK (b : Bucket) : Prop :=
  b.min_power ≤ b.avg_power ∧ b.avg_power ≤ b.max_power

/-! Rewrite lemmas for the loop body. -/

/-- First reading: the loop only records the chunk id and start time and
appends the power. -/
theorem stepReading_start (st : AggState) (r : PyDateTime × ℚ)
    (h : st.current_timestamp = none) :
    stepReading st r =
      { aggregated_data := st.aggregated_data
        current_chunk := st.current_chunk ++ [r.2]
        current_timestamp := some (chunkTime r.1)
        chunk_start_time := some r.1 } := by
  obtain ⟨agg, chunk, cts, cst⟩ := st
  simp only at h
  subst h
  simp [stepReading]

/-- Reading in the current chunk: the loop only appends the power. -/
theorem stepReading_same (st : AggState) (r : PyDateTime × ℚ) (ct : PyDateTime)
    (h : st.current_timestamp = some ct) (he : chunkTime r.1 = ct) :
    stepReading st r = { st with current_chunk := st.current_chunk ++ [r.2] } := by
  obtain ⟨agg, chunk, cts, cst⟩ := st
  simp only at h
  subst h
  simp [stepReading, he]

/-- Reading in a different chunk: the loop flushes the current chunk (when
non-empty) and opens a new one holding just the incoming reading. -/
theorem stepReading_flush (st : AggState) (r : PyDateTime × ℚ) (ct : PyDateTime)
    (h : st.current_timestamp = some ct) (hne : chunkTime r.1 ≠ ct) :
    stepReading st r =
      { aggregated_data :=
          if st.current_chunk ≠ [] then
            st.aggregated_data ++ [mkBucket ct st.current_chunk]
          else st.aggregated_data
        current_chunk := [r.2]
        current_timestamp := some (chunkTime r.1)
        chunk_start_time := some r.1 } := by
  obtain ⟨agg, chunk, cts, cst⟩ := st
  simp only at h
  subst h
  simp [stepReading, hne]

/-- Final flush on an empty chunk emits nothing. -/
theorem finishAgg_nil (st : AggState) (h : st.current_chunk = []) :
    finishAgg st = st.aggregated_data := by
  simp [finishAgg, h]

/-- Final flush on a non-empty chunk emits one last bucket. -/
theorem finishAgg_cons (st : AggState) (h : st.current_chunk ≠ []) :
    finishAgg st =
      st.aggregated_data ++ [mkBucket (st.current_timestamp.getD default) st.current_chunk] := by
  simp [finishAgg, h]

/-! Arithmetic bounds for a flushed chunk. -/

theorem foldl_add_shift (l : List ℚ) (a : ℚ) :
    l.foldl (· + ·) a = a + l.foldl (· + ·) 0 := by
  induction l generalizing a with
  | nil => simp
  | cons x xs ih =>
    simp only [List.foldl_cons]
    rw [ih (a + x), ih (0 + x)]
    ring

theorem sumList_cons (x : ℚ) (l : List ℚ) : sumList (x :: l) = x + sumList l := by
  simp only [sumList, List.foldl_cons]
  rw [foldl_add_shift l (0 + x)]
  ring

theorem le_foldl_max (l : List ℚ) (a : ℚ) : a ≤ l.foldl max a := by
  induction l generalizing a with
  | nil => simp
  | cons x xs ih => exact le_trans (le_max_left a x) (ih (max a x))

theorem mem_le_foldl_max (l : List ℚ) (a x : ℚ) (hx : x ∈ l) : x ≤ l.foldl max a := by
  induction l generalizing a with
  | nil => cases hx
  | cons y ys ih =>
    rcases List.mem_cons.mp hx with h | h
    · subst h
      exact le_trans (le_max_right a x) (le_foldl_max ys (max a x))
    · exact ih (max a y) h

theorem le_pyMax_of_mem (l : List ℚ) (x : ℚ) (hx : x ∈ l) : x ≤ pyMax l := by
  cases l with
  | nil => cases hx
  | cons y ys =>
    rcases List.mem_cons.mp hx with h | h
    · subst h
      exact le_foldl_max ys x
    · exact mem_le_foldl_max ys y x h

theorem foldl_min_le (l : List ℚ) (a : ℚ) : l.foldl min a ≤ a := by
  induction l generalizing a with
  | nil => simp
  | cons x xs ih => exact le_trans (ih (min a x)) (min_le_left a x)

theorem foldl_min_le_mem (l : List ℚ) (a x : ℚ) (hx : x ∈ l) : l.foldl min a ≤ x := by
  induction l generalizing a with
  | nil => cases hx
  | cons y ys ih =>
    rcases List.mem_cons.mp hx with h | h
    · subst h
      exact le_trans (foldl_min_le ys (min a x)) (min_le_right a x)
    · exact ih (min a y) h

theorem pyMin_le_of_mem (l : List ℚ) (x : ℚ) (hx : x ∈ l) : pyMin l ≤ x := by
  cases l with
  | nil => cases hx
  | cons y ys =>
    rcases List.mem_cons.mp hx with h | h
    · subst h
      exact foldl_min_le ys x
    · exact foldl_min_le_mem ys y x h

theorem sumList_le_length_mul (l : List ℚ) (b : ℚ) (hb : ∀ x ∈ l, x ≤ b) :
    sumList l ≤ (l.length : ℚ) * b := by
  induction l with
  | nil => simp [sumList]
  | cons x xs ih =>
    rw [sumList_cons]
    have hx : x ≤ b := hb x (List.mem_cons_self x xs)
    have hxs : sumList xs ≤ (xs.length : ℚ) * b :=
      ih (fun y hy => hb y (List.mem_cons_of_mem x hy))
    have : (List.length (x :: xs) : ℚ) = (xs.length : ℚ) + 1 := by
      simp [List.length_cons]
    rw [this]
    calc x + sumList xs ≤ b + (xs.length : ℚ) * b := add_le_add hx hxs
      _ = ((xs.length : ℚ) + 1) * b := by ring

theorem length_mul_le_sumList (l : List ℚ) (b : ℚ) (hb : ∀ x ∈ l, b ≤ x) :
    (l.length : ℚ) * b ≤ sumList l := by
  induction l with
  | nil => simp [sumList]
  | cons x xs ih =>
    rw [sumList_cons]
    have hx : b ≤ x := hb x (List.mem_cons_self x xs)
    have hxs : (xs.length : ℚ) * b ≤ sumList xs :=
      ih (fun y hy => hb y (List.mem_cons_of_mem x hy))
    have : (List.length (x :: xs) : ℚ) = (xs.length : ℚ) + 1 := by
      simp [List.length_cons]
    rw [this]
    calc ((xs.length : ℚ) + 1) * b = b + (xs.length : ℚ) * b := by ring
      _ ≤ x + sumList xs := add_le_add hx hxs

/-- Every flushed bucket has its average between its minimum and maximum. -/
theorem mkBucket_mean_bound (ts : PyDateTime) (chunk : List ℚ) (h : chunk ≠ []) :
    (mkBucket ts chunk).min_power ≤ (mkBucket ts chunk).avg_power ∧
      (mkBucket ts chunk).avg_power ≤ (mkBucket ts chunk).max_power := by
  have hlen : 0 < (chunk.length : ℚ) := by
    have := List.length_pos.mpr h
    exact_mod_cast this
  constructor
  · show (mkBucket ts chunk).min_power ≤ (mkBucket ts chunk).avg_power
    simp only [mkBucket]
    rw [le_div_iff₀ hlen]
    have := length_mul_le_sumList chunk (pyMin chunk) (fun x hx => pyMin_le_of_mem chunk x hx)
    linarith [this]
  · show (mkBucket ts chunk).avg_power ≤ (mkBucket ts chunk).max_power
    simp only [mkBucket]
    rw [div_le_iff₀ hlen]
    have := sumList_le_length_mul chunk (pyMax chunk) (fun x hx => le_pyMax_of_mem chunk x hx)
    linarith [this]

theorem mkBucket_ok (ts : PyDateTime) (chunk : List ℚ) (h : chunk ≠ []) :
    BucketOK (mkBucket ts chunk) := mkBucket_mean_bound ts chunk h

theorem stepReading_ok (st : AggState) (r : PyDateTime × ℚ)
    (h : ∀ b ∈ st.aggregated_data, BucketOK b) :
    ∀ b ∈ (stepReading st r).aggregated_data, BucketOK b := by
  cases hts : st.current_timestamp with
  | none =>
    rw [stepReading_start st r hts]
    exact h
  | some ct =>
    by_cases he : chunkTime r.1 = ct
    · rw [stepReading_same st r ct hts he]
      exact h
    · rw [stepReading_flush st r ct hts he]
      by_cases hc : st.current_chunk = []
      · simpa [hc] using h
      · simp only [hc, ne_eq, not_false_eq_true, if_true]
        intro b hb
        rcases List.mem_append.mp hb with hb | hb
        · exact h b hb
        · rcases List.mem_singleton.mp hb with rfl
          exact mkBucket_ok ct st.current_chunk hc

theorem stepLine_ok (st : AggState) (l : List Char)
    (h : ∀ b ∈ st.aggregated_data, BucketOK b) :
    ∀ b ∈ (stepLine st l).aggregated_data, BucketOK b := by
  unfold stepLine
  split
  · split
    · exact h
    · exact stepReading_ok st _ h
  · exact h

theorem finishAgg_ok (st : AggState)
    (h : ∀ b ∈ st.aggregated_data, BucketOK b) :
    ∀ b ∈ finishAgg st, BucketOK b := by
  by_cases hc : st.current_chunk = []
  · rw [finishAgg_nil st hc]
    exact h
  · rw [finishAgg_cons st hc]
    intro b hb
    rcases List.mem_append.mp hb with hb | hb
    · exact h b hb
    · rcases List.mem_singleton.mp hb with rfl
      exact mkBucket_ok _ st.current_chunk hc

theorem foldl_stepLine_ok (rows : List (List Char)) (st : AggState)
    (h : ∀ b ∈ st.aggregated_data, BucketOK b) :
    ∀ b ∈ (rows.foldl stepLine st).aggregated_data, BucketOK b := by
  induction rows generalizing st with
  | nil => exact h
  | cons l rows ih =>
    simp only [List.foldl_cons]
    exact ih (stepLine st l) (stepLine_ok st l h)

/-- C4 — Mean bound: every emitted bucket satisfies
`min_power ≤ avg_power ≤ max_power`, where `avg_power` is the arithmetic
mean of the bucket's power values, `max_power` their maximum and
`min_power` their minimum (the statistics computed by `mkBucket`). -/
theorem agg_mean_bound (rows : List (List Char)) (b : Bucket)
    (hb : b ∈ aggregateRows rows) :
    b.min_power ≤ b.avg_power ∧ b.avg_power ≤ b.max_power := by
  have : ∀ b ∈ aggregateRows rows, BucketOK b := by
    unfold aggregateRows
    exact finishAgg_ok _ (foldl_stepLine_ok rows initState (by simp [initState]))
  exact this b hb

/-- Witness for the mean bound: the bucket aggregating the two readings of a
concrete two-row run satisfies it. -/
theorem agg_mean_bound_witness :
    (Bucket.mk ⟨2023, 1, 1, 10, 0, 0, 0⟩ 150 200 100 2).min_power ≤
        (Bucket.mk ⟨2023, 1, 1, 10, 0, 0, 0⟩ 150 200 100 2).avg_power ∧
      (Bucket.mk ⟨2023, 1, 1, 10, 0, 0, 0⟩ 150 200 100 2).avg_power ≤
        (Bucket.mk ⟨2023, 1, 1, 10, 0, 0, 0⟩ 150 200 100 2).max_power :=
  agg_mean_bound
    [chars ("2023/01/01 10:00:00,100"), chars ("2023/01/01 10:05:00,200")]
    (Bucket.mk ⟨2023, 1, 1, 10, 0, 0, 0⟩ 150 200 100 2) (by decide)

/-! Reading-count bookkeeping for bucket coverage. -/

theorem stepReading_count (st : AggState) (r : PyDateTime × ℚ) :
    ((stepReading st r).aggregated_data.map Bucket.readings).sum
        + (stepReading st r).current_chunk.length
      = (st.aggregated_data.map Bucket.readings).sum + st.current_chunk.length + 1 := by
  cases hts : st.current_timestamp with
  | none =>
    rw [stepReading_start st r hts]
    simp only [List.length_append, List.length_cons, List.length_nil]
    omega
  | some ct =>
    by_cases he : chunkTime r.1 = ct
    · rw [stepReading_same st r ct hts he]
      simp only [List.length_append, List.length_cons, List.length_nil]
      omega
    · rw [stepReading_flush st r ct hts he]
      by_cases hc : st.current_chunk = []
      · simp [hc]
      · simp only [hc, ne_eq, not_false_eq_true, if_true, List.map_append,
          List.sum_append, List.map_cons, List.map_nil, List.sum_cons,
          List.sum_nil, mkBucket, List.length_cons, List.length_nil]
        omega

theorem stepLine_count (st : AggState) (l : List Char) :
    ((stepLine st l).aggregated_data.map Bucket.readings).sum
        + (stepLine st l).current_chunk.length
      = (st.aggregated_data.map Bucket.readings).sum + st.current_chunk.length
          + (if isValidRow l then 1 else 0) := by
  rcases hsplit : splitOnChar ',' l with _ | ⟨ts, _ | ⟨ps, rest⟩⟩
  · simp [stepLine, isValidRow, hsplit]
  · simp [stepLine, isValidRow, hsplit]
  · cases hparse : parseTimestamp ts with
    | none => simp [stepLine, isValidRow, hsplit, hparse]
    | some t =>
      have hs := stepReading_count st (t, parsePower ps)
      simp only [stepLine, isValidRow, hsplit, hparse, Option.isSome_some, if_true]
      exact hs

theorem foldl_stepLine_count (rows : List (List Char)) (st : AggState) :
    (((rows.foldl stepLine st).aggregated_data.map Bucket.readings).sum
        + (rows.foldl stepLine st).current_chunk.length)
      = (st.aggregated_data.map Bucket.readings).sum + st.current_chunk.length
          + rows.countP isValidRow := by
  induction rows generalizing st with
  | nil => simp
  | cons l rows ih =>
    simp only [List.foldl_cons, List.countP_cons]
    rw [ih (stepLine st l), stepLine_count]
    by_cases h : isValidRow l
    · simp [h]
      omega
    · simp [h]

theorem finishAgg_count (st : AggState) :
    ((finishAgg st).map Bucket.readings).sum
      = (st.aggregated_data.map Bucket.readings).sum + st.current_chunk.length := by
  by_cases hc : st.current_chunk = []
  · rw [finishAgg_nil st hc]
    simp [hc]
  · rw [finishAgg_cons st hc]
    simp [mkBucket]

/-- C1 — Bucket coverage: for every list of raw CSV rows, the sum of the
`readings` counts across all emitted aggregate buckets equals the number of
valid rows (rows with at least two comma-separated fields and a parseable
timestamp) — no reading is dropped at a window boundary and none is counted
in two buckets. -/
theorem agg_bucket_coverage (rows : List (List Char)) :
    ((aggregateRows rows).map Bucket.readings).sum = rows.countP isValidRow := by
  unfold aggregateRows
  rw [finishAgg_count, foldl_stepLine_count]
  simp [initState]

/-! Instrumented-loop lemmas: erasure and window assignment. -/

theorem tStepReading_start (st : TAggState) (r : PyDateTime × ℚ)
    (h : st.current_timestamp = none) :
    tStepReading st r =
      { aggregated_data := st.aggregated_data
        current_chunk := st.current_chunk ++ [r]
        current_timestamp := some (chunkTime r.1)
        chunk_start_time := some r.1 } := by
  obtain ⟨agg, chunk, cts, cst⟩ := st
  simp only at h
  subst h
  simp [tStepReading]

theorem tStepReading_same (st : TAggState) (r : PyDateTime × ℚ) (ct : PyDateTime)
    (h : st.current_timestamp = some ct) (he : chunkTime r.1 = ct) :
    tStepReading st r = { st with current_chunk := st.current_chunk ++ [r] } := by
  obtain ⟨agg, chunk, cts, cst⟩ := st
  simp only at h
  subst h
  simp [tStepReading, he]

theorem tStepReading_flush (st : TAggState) (r : PyDateTime × ℚ) (ct : PyDateTime)
    (h : st.current_timestamp = some ct) (hne : chunkTime r.1 ≠ ct) :
    tStepReading st r =
      { aggregated_data :=
          if st.current_chunk ≠ [] then
            st.aggregated_data ++ [TBucket.mk ct st.current_chunk]
          else st.aggregated_data
        current_chunk := [r]
        current_timestamp := some (chunkTime r.1)
        chunk_start_time := some r.1 } := by
  obtain ⟨agg, chunk, cts, cst⟩ := st
  simp only at h
  subst h
  simp [tStepReading, hne]

theorem erase_step (st : TAggState) (r : PyDateTime × ℚ) :
    eraseTS (tStepReading st r) = stepReading (eraseTS st) r := by
  have hts : (eraseTS st).current_timestamp = st.current_timestamp := rfl
  cases h : st.current_timestamp with
  | none =>
    rw [tStepReading_start st r h, stepReading_start (eraseTS st) r (hts.trans h)]
    simp [eraseTS]
  | some ct =>
    by_cases he : chunkTime r.1 = ct
    · rw [tStepReading_same st r ct h he, stepReading_same (eraseTS st) r ct (hts.trans h) he]
      simp [eraseTS]
    · rw [tStepReading_flush st r ct h he, stepReading_flush (eraseTS st) r ct (hts.trans h) he]
      by_cases hc : st.current_chunk = []
      · simp [eraseTS, hc]
      · have hc2 : st.current_chunk.map Prod.snd ≠ [] := by
          simpa [List.map_eq_nil_iff] using hc
        simp [eraseTS, hc, hc2, eraseTB]

theorem erase_foldl (rs : List (PyDateTime × ℚ)) (st : TAggState) :
    eraseTS (rs.foldl tStepReading st) = rs.foldl stepReading (eraseTS st) := by
  induction rs generalizing st with
  | nil => rfl
  | cons r rs ih =>
    simp only [List.foldl_cons]
    rw [ih (tStepReading st r), erase_step]

theorem erase_finish (st : TAggState) :
    finishAgg (eraseTS st) = (tFinish st).map eraseTB := by
  by_cases hc : st.current_chunk = []
  · have hc2 : (eraseTS st).current_chunk = [] := by simp [eraseTS, hc]
    rw [finishAgg_nil (eraseTS st) hc2]
    simp [tFinish, hc, eraseTS]
  · have hc2 : (eraseTS st).current_chunk ≠ [] := by
      simpa [eraseTS, List.map_eq_nil_iff] using hc
    rw [finishAgg_cons (eraseTS st) hc2]
    simp [tFinish, hc, eraseTS, eraseTB]

theorem erase_aggregate (rs : List (PyDateTime × ℚ)) :
    aggregateReadings rs = (tAggregate rs).map eraseTB := by
  unfold aggregateReadings tAggregate
  rw [← erase_finish, erase_foldl]
  rfl

/-- Window invariant of the instrumented state: every recorded bucket is
stamped with the common chunk id of its samples, and the open chunk's
samples all belong to the currently open window. -/
def TInv (st : TAggState) : Prop :=
  (∀ b ∈ st.aggregated_data, ∀ s ∈ b.samples, b.timestamp = chunkTime s.1) ∧
    (∀ s ∈ st.current_chunk, st.current_timestamp = some (chunkTime s.1))

theorem tStep_inv (st : TAggState) (r : PyDateTime × ℚ) (h : TInv st) :
    TInv (tStepReading st r) := by
  obtain ⟨hbuckets, hchunk⟩ := h
  cases hts : st.current_timestamp with
  | none =>
    rw [tStepReading_start st r hts]
    refine ⟨hbuckets, ?_⟩
    intro s hs
    rcases List.mem_append.mp hs with hs | hs
    · rw [hchunk s hs] at hts
      cases hts
    · rcases List.mem_singleton.mp hs with rfl
      rfl
  | some ct =>
    by_cases he : chunkTime r.1 = ct
    · rw [tStepReading_same st r ct hts he]
      refine ⟨hbuckets, ?_⟩
      intro s hs
      rcases List.mem_append.mp hs with hs | hs
      · exact hchunk s hs
      · rcases List.mem_singleton.mp hs with rfl
        simp only [hts, he]
    · rw [tStepReading_flush st r ct hts he]
      constructor
      · by_cases hc : st.current_chunk = []
        · simpa [hc] using hbuckets
        · simp only [hc, ne_eq, not_false_eq_true, if_true]
          intro b hb
          rcases List.mem_append.mp hb with hb | hb
          · exact hbuckets b hb
          · rcases List.mem_singleton.mp hb with rfl
            intro s hs
            have := hchunk s hs
            rw [hts] at this
            exact (Option.some.injEq _ _ ▸ this).symm ▸ rfl
      · intro s hs
        rcases List.mem_singleton.mp hs with rfl
        rfl

theorem tFinish_inv (st : TAggState) (h : TInv st) :
    ∀ b ∈ tFinish st, ∀ s ∈ b.samples, b.timestamp = chunkTime s.1 := by
  obtain ⟨hbuckets, hchunk⟩ := h
  by_cases hc : st.current_chunk = []
  · simpa [tFinish, hc] using hbuckets
  · simp only [tFinish, hc, ne_eq, not_false_eq_true, if_true]
    intro b hb
    rcases List.mem_append.mp hb with hb | hb
    · exact hbuckets b hb
    · rcases List.mem_singleton.mp hb with rfl
      intro s hs
      rw [hchunk s hs]
      rfl

theorem tAggregate_inv (rs : List (PyDateTime × ℚ)) :
    ∀ b ∈ tAggregate rs, ∀ s ∈ b.samples, b.timestamp = chunkTime s.1 := by
  have hfold : ∀ (l : List (PyDateTime × ℚ)) (st : TAggState), TInv st →
      TInv (l.foldl tStepReading st) := by
    intro l
    induction l with
    | nil => exact fun st h => h
    | cons r l ih =>
      intro st h
      simp only [List.foldl_cons]
      exact ih (tStepReading st r) (tStep_inv st r h)
  have hinit : TInv tInit := by
    constructor
    · intro b hb
      cases hb
    · intro s hs
      cases hs
  exact tFinish_inv _ (hfold rs tInit hinit)

/-- C2 — Window assignment: the program's aggregation of a reading sequence
is the erasure of the instrumented aggregation, and in the instrumented
aggregation every reading is folded into a bucket whose `window_start`
(`timestamp`) equals the reading's timestamp with the minute replaced by
`minute / 15 * 15` and the second and sub-second fields zeroed. -/
theorem agg_window_assignment (rs : List (PyDateTime × ℚ)) :
    aggregateReadings rs = (tAggregate rs).map eraseTB ∧
      ∀ b ∈ tAggregate rs, ∀ s ∈ b.samples,
        b.timestamp =
          { s.1 with minute := s.1.minute / 15 * 15, second := 0, microsecond := 0 } :=
  ⟨erase_aggregate rs, tAggregate_inv rs⟩

/-- Witness for window assignment: in a concrete one-reading run, the
reading stamped 10:37:13 is folded into the bucket whose window starts at
10:30:00. -/
theorem agg_window_assignment_witness :
    (TBucket.mk ⟨2023, 1, 1, 10, 30, 0, 0⟩ [(⟨2023, 1, 1, 10, 37, 13, 5⟩, 42)]).timestamp
      = { (⟨2023, 1, 1, 10, 37, 13, 5⟩ : PyDateTime) with
          minute := 37 / 15 * 15, second := 0, microsecond := 0 } :=
  (agg_window_assignment [(⟨2023, 1, 1, 10, 37, 13, 5⟩, 42)]).2
    (TBucket.mk ⟨2023, 1, 1, 10, 30, 0, 0⟩ [(⟨2023, 1, 1, 10, 37, 13, 5⟩, 42)])
    (by decide) (⟨2023, 1, 1, 10, 37, 13, 5⟩, 42) (by decide)

/-! Lexicographic datetime comparison lemmas for bucket ordering. -/

theorem lexLe_nil_nil : lexLe [] [] = true := rfl

theorem lexLe_cons_iff (a b : Nat) (l1 l2 : List Nat) :
    lexLe (a :: l1) (b :: l2) = true ↔ a < b ∨ (a = b ∧ lexLe l1 l2 = true) := by
  simp only [lexLe]
  split_ifs with h1 h2
  · simp only [true_iff]
    exact Or.inl h1
  · simp only [false_iff]
    intro h
    rcases h with h | ⟨h, _⟩ <;> omega
  · have hab : a = b := by omega
    subst hab
    simp

theorem lexLt_cons_iff (a b : Nat) (l1 l2 : List Nat) :
    lexLt (a :: l1) (b :: l2) = true ↔ a < b ∨ (a = b ∧ lexLt l1 l2 = true) := by
  simp only [lexLt]
  split_ifs with h1 h2
  · simp only [true_iff]
    exact Or.inl h1
  · simp only [false_iff]
    intro h
    rcases h with h | ⟨h, _⟩ <;> omega
  · have hab : a = b := by omega
    subst hab
    simp

theorem chunkTime_mono (a b : PyDateTime) (h : dtLe a b = true) :
    dtLe (chunkTime a) (chunkTime b) = true := by
  obtain ⟨y1, mo1, d1, h1, mi1, s1, u1⟩ := a
  obtain ⟨y2, mo2, d2, h2, mi2, s2, u2⟩ := b
  simp [dtLe, dtFields, chunkTime, lexLe_cons_iff, lexLe] at h ⊢
  omega

theorem lexLt_of_lexLe_of_ne (l1 l2 : List Nat) (h : lexLe l1 l2 = true)
    (hne : l1 ≠ l2) : lexLt l1 l2 = true := by
  induction l1 generalizing l2 with
  | nil =>
    cases l2 with
    | nil => exact absurd rfl hne
    | cons b t2 => simp [lexLt]
  | cons a t1 ih =>
    cases l2 with
    | nil => simp [lexLe] at h
    | cons b t2 =>
      rw [lexLe_cons_iff] at h
      rw [lexLt_cons_iff]
      rcases h with h | ⟨rfl, h⟩
      · exact Or.inl h
      · refine Or.inr ⟨rfl, ih t2 h ?_⟩
        intro ht
        exact hne (by rw [ht])

theorem dtFields_inj (a b : PyDateTime) (h : dtFields a = dtFields b) : a = b := by
  obtain ⟨y1, mo1, d1, h1, mi1, s1, u1⟩ := a
  obtain ⟨y2, mo2, d2, h2, mi2, s2, u2⟩ := b
  simp only [dtFields, List.cons.injEq, and_true] at h
  obtain ⟨e1, e2, e3, e4, e5, e6, e7⟩ := h
  simp [e1, e2, e3, e4, e5, e6, e7]

theorem dtLt_of_dtLe_of_ne (a b : PyDateTime) (h : dtLe a b = true) (hne : a ≠ b) :
    dtLt a b = true := by
  apply lexLt_of_lexLe_of_ne _ _ h
  intro hf
  exact hne (dtFields_inj a b hf)

/-! Bucket-ordering induction. -/

theorem agg_order_aux (rs : List (PyDateTime × ℚ)) (st : AggState)
    (r0 : PyDateTime × ℚ)
    (hts : st.current_timestamp = some (chunkTime r0.1))
    (hchunk : st.current_chunk ≠ [])
    (hchain : List.Chain' (fun x y => dtLt x y = true)
      (st.aggregated_data.map Bucket.timestamp ++ [chunkTime r0.1]))
    (hsorted : List.Chain (fun a b => dtLe a.1 b.1 = true) r0 rs) :
    List.Chain' (fun x y => dtLt x y = true)
      ((finishAgg (rs.foldl stepReading st)).map Bucket.timestamp) := by
  induction rs generalizing st r0 with
  | nil =>
    simp only [List.foldl_nil]
    rw [finishAgg_cons st hchunk]
    simpa [hts, mkBucket] using hchain
  | cons r rs ih =>
    have hle : dtLe r0.1 r.1 = true := (List.chain_cons.mp hsorted).1
    have htail : List.Chain (fun a b => dtLe a.1 b.1 = true) r rs :=
      (List.chain_cons.mp hsorted).2
    simp only [List.foldl_cons]
    by_cases he : chunkTime r.1 = chunkTime r0.1
    · rw [stepReading_same st r (chunkTime r0.1) hts he]
      exact ih _ r (by simpa using (he ▸ hts)) (by simp)
        (by simpa [he] using hchain) htail
    · rw [stepReading_flush st r (chunkTime r0.1) hts he]
      have hlt : dtLt (chunkTime r0.1) (chunkTime r.1) = true :=
        dtLt_of_dtLe_of_ne _ _ (chunkTime_mono r0.1 r.1 hle) (Ne.symm he)
      refine ih _ r rfl (by simp) ?_ htail
      simp only [hchunk, ne_eq, not_false_eq_true, if_true, List.map_append,
        List.map_cons, List.map_nil, mkBucket]
      rw [List.append_assoc]
      rw [List.chain'_append] at hchain ⊢
      refine ⟨hchain.1, ?_, ?_⟩
      · simp only [List.singleton_append]
        exact List.chain'_cons.mpr ⟨hlt, List.chain'_singleton _⟩
      · intro x hx y hy
        simp only [List.singleton_append, List.head?_cons, Option.mem_def,
          Option.some.injEq] at hy
        subst hy
        exact hchain.2.2 x hx (chunkTime r0.1) rfl

/-- C3 — Bucket ordering: for every input reading sequence whose timestamps
are chronologically non-decreasing (in Python `datetime` order `dtLe`), the
emitted buckets are strictly increasing in their `window_start` timestamps
(`dtLt` between consecutive buckets). -/
theorem agg_bucket_ordering (rs : List (PyDateTime × ℚ))
    (hsorted : List.Chain' (fun a b => dtLe a.1 b.1 = true) rs) :
    List.Chain' (fun b1 b2 => dtLt b1.timestamp b2.timestamp = true)
      (aggregateReadings rs) := by
  cases rs with
  | nil => simp [aggregateReadings, initState, finishAgg]
  | cons r rs =>
    have hchain : List.Chain (fun a b => dtLe a.1 b.1 = true) r rs := hsorted
    have h1 : stepReading initState r =
        AggState.mk [] [r.2] (some (chunkTime r.1)) (some r.1) := by
      rw [stepReading_start initState r rfl]
      rfl
    have haux := agg_order_aux rs (AggState.mk [] [r.2] (some (chunkTime r.1)) (some r.1))
      r rfl (by simp) (by simp) hchain
    rw [show aggregateReadings (r :: rs)
        = finishAgg ((r :: rs).foldl stepReading initState) from rfl, List.foldl_cons, h1]
    exact (List.chain'_map Bucket.timestamp).mp haux

/-- Witness for bucket ordering: a sorted two-reading run spanning two
windows yields buckets with strictly increasing window starts. -/
theorem agg_bucket_ordering_witness :
    List.Chain' (fun b1 b2 => dtLt b1.timestamp b2.timestamp = true)
      (aggregateReadings
        [(⟨2023, 1, 1, 10, 0, 0, 0⟩, 100), (⟨2023, 1, 1, 10, 20, 0, 0⟩, 50)]) :=
  agg_bucket_ordering
    [(⟨2023, 1, 1, 10, 0, 0, 0⟩, 100), (⟨2023, 1, 1, 10, 20, 0, 0⟩, 50)]
    (List.Chain.cons (by decide) List.Chain.nil)

/-! Parsing-behaviour theorems. -/

theorem stepLine_skip (st : AggState) (line ts ps : List Char)
    (rest : List (List Char)) (hsplit : splitOnChar ',' line = ts :: ps :: rest)
    (hparse : parseTimestamp ts = none) : stepLine st line = st := by
  simp [stepLine, hsplit, hparse]

/-- C5 — Timestamp parsing: the parser tries `%Y/%m/%d %H:%M:%S` first and
falls back to `%Y-%m-%d %H:%M:%S` only when the first format fails; a line
with at least two comma-separated fields whose timestamp matches neither
format leaves the loop state untouched and contributes nothing to any
bucket of the aggregation, with no error raised. -/
theorem timestamp_fallback_and_skip :
    (∀ (s : List Char) (t : PyDateTime),
        strptimeWithSep '/' s = some t → parseTimestamp s = some t)
    ∧ (∀ s : List Char,
        strptimeWithSep '/' s = none → parseTimestamp s = strptimeWithSep '-' s)
    ∧ (∀ (st : AggState) (line ts ps : List Char) (rest : List (List Char)),
        splitOnChar ',' line = ts :: ps :: rest → parseTimestamp ts = none →
        stepLine st line = st)
    ∧ (∀ (line ts ps : List Char) (rest : List (List Char))
        (rows1 rows2 : List (List Char)),
        splitOnChar ',' line = ts :: ps :: rest → parseTimestamp ts = none →
        aggregateRows (rows1 ++ line :: rows2) = aggregateRows (rows1 ++ rows2)) := by
  refine ⟨?_, ?_, stepLine_skip, ?_⟩
  · intro s t h
    simp [parseTimestamp, h]
  · intro s h
    simp [parseTimestamp, h]
  · intro line ts ps rest rows1 rows2 hsplit hparse
    unfold aggregateRows
    rw [List.foldl_append, List.foldl_append, List.foldl_cons,
      stepLine_skip _ _ _ _ _ hsplit hparse]

/-- Witness for C5: a slash-format timestamp parses via the first format —
also with a tab between date and time, as the format's space matches any
whitespace run — and a row with an unparseable timestamp is skipped without
effect. -/
theorem timestamp_fallback_and_skip_witness :
    parseTimestamp (chars ("2023/01/02 03:04:05")) = some ⟨2023, 1, 2, 3, 4, 5, 0⟩
    ∧ parseTimestamp (chars ("2023/01/02\t03:04:05")) = some ⟨2023, 1, 2, 3, 4, 5, 0⟩
    ∧ stepLine initState (chars ("garbage,5")) = initState :=
  ⟨timestamp_fallback_and_skip.1 (chars ("2023/01/02 03:04:05"))
      ⟨2023, 1, 2, 3, 4, 5, 0⟩ (by decide),
    timestamp_fallback_and_skip.1 (chars ("2023/01/02\t03:04:05"))
      ⟨2023, 1, 2, 3, 4, 5, 0⟩ (by decide),
    timestamp_fallback_and_skip.2.2.1 initState (chars ("garbage,5"))
      (chars ("garbage")) (chars ("5")) [] (by decide) (by decide)⟩

/-- C6 counterexample: the row `2023/01/01 12:00:00,-5` has a valid
timestamp and a power field that is not a non-negative decimal numeral, yet
the loop folds in the reading with power `-5`, not `0`. -/
theorem power_field_recovery_counterexample :
    isValidRow (chars ("2023/01/01 12:00:00,-5")) = true
    ∧ isNonNegDecimalNumeral (chars ("-5")) = false
    ∧ (stepLine initState (chars ("2023/01/01 12:00:00,-5"))).current_chunk = [-5]
    ∧ ((-5 : ℚ) ≠ 0) := by
  decide

/-- C6 (amended) — Power-field recovery: for every input line with a valid
timestamp, a power field that fails the digit screen (the field with `'.'`
and `'-'` deleted must be non-empty and all digits) or whose float
conversion fails yields a reading with power `0`; a field passing both
parses to its float value, which may be negative; and the parse of a line
with a valid timestamp always folds in exactly one reading, so one bad
power value never aborts processing of the remaining lines. -/
theorem power_field_recovery_amended :
    (∀ s : List Char, passesScreen s = false → parsePower s = 0)
    ∧ (∀ s : List Char, floatOfDigitsDotMinus s = none → parsePower s = 0)
    ∧ (∀ (s : List Char) (q : ℚ),
        passesScreen s = true → floatOfDigitsDotMinus s = some q → parsePower s = q)
    ∧ (∀ (st : AggState) (line ts ps : List Char) (rest : List (List Char))
        (t : PyDateTime),
        splitOnChar ',' line = ts :: ps :: rest → parseTimestamp ts = some t →
        stepLine st line = stepReading st (t, parsePower ps)) := by
  refine ⟨?_, ?_, ?_, ?_⟩
  · intro s h
    simp [parsePower, h]
  · intro s h
    by_cases hs : passesScreen s
    · simp [parsePower, hs, h]
    · simp [parsePower, hs]
  · intro s q hs hq
    simp [parsePower, hs, hq]
  · intro st line ts ps rest t hsplit hparse
    simp [stepLine, hsplit, hparse]

/-- Witness for the amended power-field recovery: a non-numeric field and a
screen-passing but unconvertible field both default to `0`, a decimal field
parses to its value, and a row with a bad power field still yields one
reading. -/
theorem power_field_recovery_amended_witness :
    parsePower (chars ("watts")) = 0
    ∧ parsePower (chars ("5-2")) = 0
    ∧ parsePower (chars ("7.5")) = 15 / 2
    ∧ stepLine initState (chars ("2023/01/01 12:00:00,boom"))
        = stepReading initState (⟨2023, 1, 1, 12, 0, 0, 0⟩, parsePower (chars ("boom"))) :=
  ⟨power_field_recovery_amended.1 (chars ("watts")) (by decide),
    power_field_recovery_amended.2.1 (chars ("5-2")) (by decide),
    power_field_recovery_amended.2.2.1 (chars ("7.5")) (15 / 2) (by decide) (by decide),
    power_field_recovery_amended.2.2.2 initState (chars ("2023/01/01 12:00:00,boom"))
      (chars ("2023/01/01 12:00:00")) (chars ("boom")) [] ⟨2023, 1, 1, 12, 0, 0, 0⟩
      (by decide) (by decide)⟩

/-- C7 — Productive hours: the reported productive-hours value equals the
count of aggregated samples whose average power strictly exceeds the 50 W
productivity floor, multiplied by the 0.25-hour duration of a 15-minute
bucket, divided by the length in days of the (24-hour) analysis period; and
a sample at or below 50 W contributes nothing to the count while a sample
above it contributes exactly one. -/
theorem productive_hours_metric :
    (∀ agg : List Bucket,
        productive_hours agg
          = ((agg.countP (fun c => decide ((50 : ℚ) < c.avg_power)) : ℚ) * (1 / 4))
              / analysis_period_days)
    ∧ (∀ (agg : List Bucket) (c : Bucket), c.avg_power ≤ 50 →
        productive_chunks (agg ++ [c]) = productive_chunks agg)
    ∧ (∀ (agg : List Bucket) (c : Bucket), 50 < c.avg_power →
        productive_chunks (agg ++ [c]) = productive_chunks agg + 1) := by
  refine ⟨?_, ?_, ?_⟩
  · intro agg
    rw [productive_hours, productive_chunks, analysis_period_days,
      List.countP_eq_length_filter]
    norm_num
  · intro agg c h
    have hd : decide ((50 : ℚ) < c.avg_power) = false :=
      decide_eq_false (not_lt.mpr h)
    rw [productive_chunks, productive_chunks, List.filter_append]
    simp [List.filter, hd]
  · intro agg c h
    have hd : decide ((50 : ℚ) < c.avg_power) = true := decide_eq_true h
    rw [productive_chunks, productive_chunks, List.filter_append]
    simp [List.filter, hd]

/-- Witness for the productive-hours metric: a 10 W sample contributes
nothing and a 90 W sample contributes one productive chunk. -/
theorem productive_hours_metric_witness :
    productive_chunks ([] ++ [Bucket.mk ⟨2023, 1, 1, 0, 0, 0, 0⟩ 10 10 10 1])
        = productive_chunks []
    ∧ productive_chunks ([] ++ [Bucket.mk ⟨2023, 1, 1, 12, 0, 0, 0⟩ 90 90 90 1])
        = productive_chunks [] + 1 :=
  ⟨productive_hours_metric.2.1 [] (Bucket.mk ⟨2023, 1, 1, 0, 0, 0, 0⟩ 10 10 10 1)
      (by decide),
    productive_hours_metric.2.2 [] (Bucket.mk ⟨2023, 1, 1, 12, 0, 0, 0⟩ 90 90 90 1)
      (by decide)⟩

/-- C8 — Out-of-order input: whenever a reading's computed window differs in
any direction from the currently open bucket's window, the current chunk is
flushed and a new chunk opens at the incoming reading's window; hence for
non-sorted input the emitted buckets can repeat and decrease in
`window_start`, and readings of one window arriving non-contiguously
produce multiple buckets for that window rather than being merged or
rejected — as the concrete run with windows `[10:00, 10:15, 10:00]` shows. -/
theorem out_of_order_window_flush :
    (∀ (st : AggState) (ct : PyDateTime) (r : PyDateTime × ℚ),
        st.current_timestamp = some ct → chunkTime r.1 ≠ ct →
        stepReading st r =
          { aggregated_data :=
              if st.current_chunk ≠ [] then
                st.aggregated_data ++ [mkBucket ct st.current_chunk]
              else st.aggregated_data
            current_chunk := [r.2]
            current_timestamp := some (chunkTime r.1)
            chunk_start_time := some r.1 })
    ∧ (aggregateReadings
          [(⟨2023, 1, 1, 10, 0, 0, 0⟩, 100), (⟨2023, 1, 1, 10, 20, 0, 0⟩, 50),
            (⟨2023, 1, 1, 10, 5, 0, 0⟩, 75)]).map Bucket.timestamp
        = [⟨2023, 1, 1, 10, 0, 0, 0⟩, ⟨2023, 1, 1, 10, 15, 0, 0⟩,
            ⟨2023, 1, 1, 10, 0, 0, 0⟩]
    ∧ dtLt (⟨2023, 1, 1, 10, 0, 0, 0⟩ : PyDateTime) ⟨2023, 1, 1, 10, 15, 0, 0⟩ = true :=
  ⟨fun st ct r h hne => stepReading_flush st r ct h hne, by decide, by decide⟩

/-- Witness for the out-of-order flush: a reading whose window precedes the
open bucket's window still flushes it and reopens at the earlier window. -/
theorem out_of_order_window_flush_witness :
    stepReading
        (AggState.mk [] [100] (some ⟨2023, 1, 1, 10, 0, 0, 0⟩)
          (some ⟨2023, 1, 1, 10, 0, 0, 0⟩)) (⟨2023, 1, 1, 9, 59, 0, 0⟩, 20)
      = { aggregated_data :=
            if ([100] : List ℚ) ≠ [] then
              [] ++ [mkBucket ⟨2023, 1, 1, 10, 0, 0, 0⟩ [100]]
            else []
          current_chunk := [20]
          current_timestamp := some (chunkTime ⟨2023, 1, 1, 9, 59, 0, 0⟩)
          chunk_start_time := some ⟨2023, 1, 1, 9, 59, 0, 0⟩ } :=
  out_of_order_window_flush.1
    (AggState.mk [] [100] (some ⟨2023, 1, 1, 10, 0, 0, 0⟩)
      (some ⟨2023, 1, 1, 10, 0, 0, 0⟩)) ⟨2023, 1, 1, 10, 0, 0, 0⟩
    (⟨2023, 1, 1, 9, 59, 0, 0⟩, 20) rfl (by decide)

/-- C9 — Header row: the first line of the raw CSV text is always excluded
from aggregation, even when it is itself a well-formed reading row: the
processed rows are exactly the lines after the first, and in the concrete
two-line CSV whose first line is a valid reading only the second line is
aggregated. -/
theorem header_row_excluded :
    (∀ (h : List Char) (rows : List (List Char)),
        processLines (h :: rows) = aggregateRows rows)
    ∧ isValidRow (chars ("2023/01/01 10:00:00,100")) = true
    ∧ processCsv (chars ("2023/01/01 10:00:00,100\n2023/01/01 10:01:00,200"))
        = [Bucket.mk ⟨2023, 1, 1, 10, 0, 0, 0⟩ 200 200 200 1] := by
  refine ⟨?_, by decide, by decide⟩
  intro h rows
  cases rows with
  | nil => simp [processLines, aggregateRows, finishAgg, initState]
  | cons r rs =>
    have hlen : 1 < (h :: r :: rs).length := by simp
    simp [processLines, hlen]

/-- C10 — Accepted power grammar: the power field is converted by `float`
only when the field with all `'.'` and `'-'` characters deleted is a
non-empty digit string, any conversion failure yields `0`, a field such as
`"-5"` passes the screen and parses to a negative value that propagates
into a bucket's `min_power`, while float notations such as `"1e3"`, `"+5"`
or a field with a space are zero-defaulted. -/
theorem power_grammar :
    parsePower (chars ("-5")) = -5
    ∧ (aggregateRows [chars ("2023/01/01 10:00:00,100"),
          chars ("2023/01/01 10:01:00,-5")]).map Bucket.min_power = [-5]
    ∧ parsePower (chars ("1e3")) = 0
    ∧ parsePower (chars ("+5")) = 0
    ∧ parsePower (chars (" 5")) = 0
    ∧ (∀ s : List Char, passesScreen s = false → parsePower s = 0)
    ∧ (∀ s : List Char,
        passesScreen s = true → parsePower s = (floatOfDigitsDotMinus s).getD 0) := by
  refine ⟨by decide, by decide, by decide, by decide, by decide, ?_, ?_⟩
  · intro s h
    simp [parsePower, h]
  · intro s h
    simp [parsePower, h]

/-- Witness for the power grammar: a field with a non-digit character is
zero-defaulted by the screen, and a screen-passing field is converted by
`float`. -/
theorem power_grammar_witness :
    parsePower (chars ("12;34")) = 0
    ∧ parsePower (chars ("-5")) = (floatOfDigitsDotMinus (chars ("-5"))).getD 0 :=
  ⟨power_grammar.2.2.2.2.2.1 (chars ("12;34")) (by decide),
    power_grammar.2.2.2.2.2.2 (chars ("-5")) (by decide)⟩
